import Mathlib

/-!
Verification of the pep8 style-checker core (`pep8.py`) against its
natural-language specification.  The Python source is shallowly embedded:
Python strings become `List Char`, Python byte strings become `List Nat`,
fallible code returns `Except String` (the string names the Python
exception), and machine arithmetic is `Nat`/`Int` (Python integers are
unbounded, so no wrap-around modelling is required).
-/

set_option autoImplicit false

namespace Pep8

/-! ### Python string primitives -/

/-- The characters stripped by Python's argument-less `str.strip`/`lstrip`/
`rstrip`: space, tab, newline, carriage return, vertical tab, form feed. -/
def pyIsSpace (ch : Char) : Bool :=
  ch = ' ' ∨ ch = '\t' ∨ ch = '\n' ∨ ch = '\r' ∨ ch = Char.ofNat 11 ∨ ch = Char.ofNat 12

/-- Python `s.lstrip()` (no argument). -/
def pyLstrip (s : List Char) : List Char := s.dropWhile pyIsSpace

/-- Python `s.rstrip()` (no argument). -/
def pyRstrip (s : List Char) : List Char := (s.reverse.dropWhile pyIsSpace).reverse

/-- Python `s.startswith(pre)`. -/
def pyStartswith : List Char → List Char → Bool
  | _, [] => true
  | [], _ :: _ => false
  | a :: s, b :: pre => a = b ∧ pyStartswith s pre

/-- Python `s.endswith(suffix)`: the last `len(suffix)` characters equal
`suffix` (false when `s` is shorter than `suffix`). -/
def pyEndswith (s suffix : List Char) : Bool :=
  decide (s.drop (s.length - suffix.length) = suffix)

/-- Python sequence indexing `l[i]`: negative indices count from the end,
out-of-range indices raise `IndexError` (modelled as `none`). -/
def pyGet {α : Type} (l : List α) (i : Int) : Option α :=
  if i < 0 then
    if (-i).toNat ≤ l.length then l.get? (l.length - (-i).toNat) else none
  else l.get? i.toNat

/-- Python substring membership `needle in haystack` for strings. -/
def pyInStr (needle : List Char) : List Char → Bool
  | [] => pyStartswith [] needle
  | h :: t => pyStartswith (h :: t) needle ∨ pyInStr needle t

/-- The single-quote character, `chr(39)`. -/
def SQ : Char := Char.ofNat 39

/-- The double-quote character, `chr(34)`. -/
def DQ : Char := Char.ofNat 34

/-! ### Module-level constants of `pep8.py` -/

/-- `INDENTATION_WHITESPACE = ' \t'` -/
def INDENTATION_WHITESPACE : List Char := [' ', '\t']

/-- `OPEN_PARENS = '(['` followed by a brace, i.e. the three opening brackets. -/
def OPEN_PARENS : List Char := ['(', '[', Char.ofNat 123]

/-- `CLOSE_PARENS = ')]'` followed by a closing brace. -/
def CLOSE_PARENS : List Char := [')', ']', Char.ofNat 125]

/-! ### `leading_indentation` and `indentation_level` -/

/-- `leading_indentation(s, indent_chars)`:
`s[:len(s) - len(s.lstrip(indent_chars))]`. -/
def leading_indentation (s : List Char) (indentChars : List Char) : List Char :=
  s.take (s.length - (s.dropWhile (fun ch => ch ∈ indentChars)).length)

/-- The accumulator loop of `indentation_level`: a tab rounds the running
result down to a multiple of 8 and adds 8, a space adds 1, anything else
breaks out of the loop. -/
def indentationLevelFrom (result : Nat) : List Char → Nat
  | [] => result
  | ch :: rest =>
    if ch = '\t' then indentationLevelFrom (result / 8 * 8 + 8) rest
    else if ch = ' ' then indentationLevelFrom (result + 1) rest
    else result

/-- `indentation_level(line)` from `pep8.py`. -/
def indentation_level (line : List Char) : Nat :=
  indentationLevelFrom 0 line

/-- The least multiple of 8 strictly greater than `r` (candidate formula;
`nextTabStop_least` below proves it is exactly that). -/
def nextTabStop (r : Nat) : Nat := 8 * (r / 8 + 1)

/-- The claim's description of the scan: each space adds 1, each tab advances
the running total to the next multiple of 8, the first other character stops
the scan. -/
def indentationSpecScan : Nat → List Char → Nat
  | r, [] => r
  | r, ch :: rest =>
    if ch = ' ' then indentationSpecScan (r + 1) rest
    else if ch = '\t' then indentationSpecScan (nextTabStop r) rest
    else r

theorem nextTabStop_least (r : Nat) :
    8 ∣ nextTabStop r ∧ r < nextTabStop r ∧ ∀ m, 8 ∣ m → r < m → nextTabStop r ≤ m := by
  refine ⟨⟨r / 8 + 1, rfl⟩, ?_, ?_⟩
  · have h := Nat.div_add_mod r 8
    have h2 : r % 8 < 8 := Nat.mod_lt _ (by norm_num)
    unfold nextTabStop
    omega
  · intro m hdvd hlt
    obtain ⟨k, rfl⟩ := hdvd
    have h := Nat.div_add_mod r 8
    have h2 : r % 8 < 8 := Nat.mod_lt _ (by norm_num)
    unfold nextTabStop
    omega

theorem indentationLevelFrom_eq_spec (s : List Char) :
    ∀ r, indentationLevelFrom r s = indentationSpecScan r s := by
  induction s with
  | nil => intro r; rfl
  | cons ch rest ih =>
    intro r
    simp only [indentationLevelFrom, indentationSpecScan]
    by_cases htab : ch = '\t'
    · subst htab
      rw [if_pos rfl, if_neg (show ¬(('\t' : Char) = ' ') by decide), if_pos rfl, ih]
      congr 1
      unfold nextTabStop
      omega
    · by_cases hsp : ch = ' '
      · subst hsp
        rw [if_neg (show ¬((' ' : Char) = '\t') by decide), if_pos rfl, if_pos rfl, ih]
      · rw [if_neg htab, if_neg hsp, if_neg hsp, if_neg htab]

/-! ### `mute_string` -/

/-- Python `text.index(c)` for a single character (first occurrence; in the
source it is only evaluated under an `endswith` guard that guarantees the
character occurs). -/
def pyFindIdx (s : List Char) (c : Char) : Nat :=
  s.findIdx (fun ch => ch = c)

/-- `mute_string(text)` from `pep8.py`: keep the prefix letters and quote
delimiters, replace the enclosed content by a same-length run of `x`.
`text[:start] + 'x' * (end - start) + text[end:]` — Nat subtraction matches
Python here because `'x' * n` is empty for `n <= 0` and the slice bounds are
non-negative on every reachable input. -/
def mute_string (text : List Char) : List Char :=
  let start0 := 1
  let end0 := text.length - 1
  let start1 :=
    if pyEndswith text [DQ] then start0 + pyFindIdx text DQ
    else if pyEndswith text [SQ] then start0 + pyFindIdx text SQ
    else start0
  let start2 :=
    if pyEndswith text [DQ, DQ, DQ] ∨ pyEndswith text [SQ, SQ, SQ] then start1 + 2 else start1
  let end2 :=
    if pyEndswith text [DQ, DQ, DQ] ∨ pyEndswith text [SQ, SQ, SQ] then end0 - 2 else end0
  text.take start2 ++ List.replicate (end2 - start2) 'x' ++ text.drop end2

/-- A single- or double-quote character. -/
def IsQuote (q : Char) : Prop := q = DQ ∨ q = SQ

/-- A well-formed string-literal token text: optional prefix letters, then
matching single (`q…q`) or triple (`qqq…qqq`) quote delimiters enclosing the
content; for single quotes the content does not contain the delimiter. -/
def WellformedLit (t : List Char) : Prop :=
  ∃ (p c : List Char) (q : Char), IsQuote q ∧ (∀ ch ∈ p, ch.isAlpha = true) ∧
    ((t = p ++ [q] ++ c ++ [q] ∧ q ∉ c) ∨ t = p ++ [q, q, q] ++ c ++ [q, q, q])

theorem pyEndswith_concat (l : List Char) (a b : Char) :
    pyEndswith (l ++ [a]) [b] = decide (a = b) := by
  unfold pyEndswith
  have h1 : (l ++ [a]).length - ([b] : List Char).length = l.length := by simp
  rw [h1, List.drop_left]
  simp

theorem pyEndswith_iff (s suf : List Char) :
    pyEndswith s suf = true ↔ ∃ u, s = u ++ suf := by
  unfold pyEndswith
  simp only [decide_eq_true_eq]
  constructor
  · intro h
    refine ⟨s.take (s.length - suf.length), ?_⟩
    conv_lhs => rw [← List.take_append_drop (s.length - suf.length) s]
    rw [h]
  · rintro ⟨u, rfl⟩
    have h1 : (u ++ suf).length - suf.length = u.length := by simp
    rw [h1, List.drop_left]

theorem findIdx_append_first {p : List Char} {q : Char} (rest : List Char)
    (hp : ∀ ch ∈ p, ch ≠ q) :
    (p ++ q :: rest).findIdx (fun ch => ch = q) = p.length := by
  induction p with
  | nil => simp [List.findIdx_cons]
  | cons a p ih =>
    have ha : (a = q) = False := by
      simp only [eq_iff_iff, iff_false]
      exact hp a (List.mem_cons_self a p)
    rw [List.cons_append, List.findIdx_cons]
    simp only [ha, decide_False, cond_false]
    rw [ih (fun ch h => hp ch (List.mem_cons_of_mem a h))]
    simp

theorem not_endswith_triple_single (p c : List Char) (q r : Char) (hquote : IsQuote q)
    (hp : ∀ ch ∈ p, ch ≠ DQ ∧ ch ≠ SQ) (hc : q ∉ c) (_hr : IsQuote r) :
    pyEndswith (p ++ [q] ++ c ++ [q]) [r, r, r] = false := by
  cases hval : pyEndswith (p ++ [q] ++ c ++ [q]) [r, r, r]
  · rfl
  · exfalso
    obtain ⟨u, hu⟩ := (pyEndswith_iff _ _).1 hval
    -- the last characters agree, so r = q
    have hlast : ((p ++ [q] ++ c) ++ [q]).getLast? = some q := List.getLast?_concat _
    have hform : ((p ++ [q] ++ c) ++ [q] : List Char) = (u ++ [r, r]) ++ [r] := by
      rw [show ((u ++ [r, r]) ++ [r] : List Char) = u ++ [r, r, r] by simp]
      simpa using hu
    rw [hform, List.getLast?_concat] at hlast
    have hrq : r = q := Option.some.inj hlast
    subst hrq
    -- strip the last character: p ++ [r] ++ c = u ++ [r, r]
    have h3 : (p ++ [r] ++ c : List Char) = u ++ [r, r] := by
      have h4 := congrArg List.dropLast hform
      rwa [List.dropLast_concat, List.dropLast_concat] at h4
    rcases List.eq_nil_or_concat c with hcnil | ⟨c2, x, hcx⟩
    · subst hcnil
      have h5 : (p ++ [r] : List Char) = (u ++ [r]) ++ [r] := by
        rw [show ((u ++ [r]) ++ [r] : List Char) = u ++ [r, r] by simp]
        simpa using h3
      have h6 := congrArg List.dropLast h5
      rw [List.dropLast_concat, List.dropLast_concat] at h6
      have hmem : r ∈ p := by rw [h6]; simp
      rcases hquote with hq1 | hq1
      · exact (hp r hmem).1 hq1
      · exact (hp r hmem).2 hq1
    · subst hcx
      have h5 : ((p ++ [r] ++ c2) ++ [x] : List Char) = (u ++ [r]) ++ [r] := by
        rw [show ((u ++ [r]) ++ [r] : List Char) = u ++ [r, r] by simp]
        simpa using h3
      have h6 := congrArg List.getLast? h5
      rw [List.getLast?_concat, List.getLast?_concat] at h6
      have hx : x = r := Option.some.inj h6
      exact hc (by rw [hx]; simp)

theorem mute_single (p c : List Char) (q : Char) (hq : IsQuote q)
    (hp : ∀ ch ∈ p, ch ≠ DQ ∧ ch ≠ SQ) (hc : q ∉ c) :
    mute_string (p ++ [q] ++ c ++ [q]) =
      p ++ [q] ++ List.replicate c.length 'x' ++ [q] := by
  have hlen : (p ++ [q] ++ c ++ [q] : List Char).length = p.length + c.length + 2 := by
    simp
    omega
  have hSingle : ∀ r : Char, pyEndswith (p ++ [q] ++ c ++ [q]) [r] = decide (q = r) := by
    intro r
    rw [show (p ++ [q] ++ c ++ [q] : List Char) = (p ++ [q] ++ c) ++ [q] by simp,
      pyEndswith_concat]
  have h3D : pyEndswith (p ++ [q] ++ c ++ [q]) [DQ, DQ, DQ] = false :=
    not_endswith_triple_single p c q DQ hq hp hc (Or.inl rfl)
  have h3S : pyEndswith (p ++ [q] ++ c ++ [q]) [SQ, SQ, SQ] = false :=
    not_endswith_triple_single p c q SQ hq hp hc (Or.inr rfl)
  have hnot3 : ¬(pyEndswith (p ++ [q] ++ c ++ [q]) [DQ, DQ, DQ] = true
      ∨ pyEndswith (p ++ [q] ++ c ++ [q]) [SQ, SQ, SQ] = true) := by
    rw [h3D, h3S]
    simp
  have hfind : pyFindIdx (p ++ [q] ++ c ++ [q]) q = p.length := by
    unfold pyFindIdx
    rw [show (p ++ [q] ++ c ++ [q] : List Char) = p ++ q :: (c ++ [q]) by simp]
    exact findIdx_append_first _ (fun ch h => by
      rcases hq with hq1 | hq1 <;> subst hq1
      · exact (hp ch h).1
      · exact (hp ch h).2)
  have htake : (p ++ [q] ++ c ++ [q] : List Char).take (1 + p.length) = p ++ [q] := by
    rw [show (p ++ [q] ++ c ++ [q] : List Char) = (p ++ [q]) ++ (c ++ [q]) by simp]
    exact List.take_left' (by simp; omega)
  have hdrop : (p ++ [q] ++ c ++ [q] : List Char).drop (p.length + c.length + 1) = [q] := by
    rw [show (p ++ [q] ++ c ++ [q] : List Char) = (p ++ [q] ++ c) ++ [q] by simp]
    exact List.drop_left' (by simp; omega)
  rcases hq with hq1 | hq1 <;> subst hq1
  · have hD : pyEndswith (p ++ [DQ] ++ c ++ [DQ]) [DQ] = true := by
      rw [hSingle DQ]
      decide
    simp only [mute_string]
    rw [if_pos hD, if_neg hnot3, if_neg hnot3, hfind, hlen]
    rw [show p.length + c.length + 2 - 1 - (1 + p.length) = c.length by omega]
    rw [show p.length + c.length + 2 - 1 = p.length + c.length + 1 by omega]
    rw [htake, hdrop]
  · have hD : ¬(pyEndswith (p ++ [SQ] ++ c ++ [SQ]) [DQ] = true) := by
      rw [hSingle DQ]
      decide
    have hS : pyEndswith (p ++ [SQ] ++ c ++ [SQ]) [SQ] = true := by
      rw [hSingle SQ]
      decide
    simp only [mute_string]
    rw [if_neg hD, if_pos hS, if_neg hnot3, if_neg hnot3, hfind, hlen]
    rw [show p.length + c.length + 2 - 1 - (1 + p.length) = c.length by omega]
    rw [show p.length + c.length + 2 - 1 = p.length + c.length + 1 by omega]
    rw [htake, hdrop]

theorem mute_triple (p c : List Char) (q : Char) (hq : IsQuote q)
    (hp : ∀ ch ∈ p, ch ≠ DQ ∧ ch ≠ SQ) :
    mute_string (p ++ [q, q, q] ++ c ++ [q, q, q]) =
      p ++ [q, q, q] ++ List.replicate c.length 'x' ++ [q, q, q] := by
  have hlen : (p ++ [q, q, q] ++ c ++ [q, q, q] : List Char).length
      = p.length + c.length + 6 := by
    simp
    omega
  have hSingle : ∀ r : Char,
      pyEndswith (p ++ [q, q, q] ++ c ++ [q, q, q]) [r] = decide (q = r) := by
    intro r
    rw [show (p ++ [q, q, q] ++ c ++ [q, q, q] : List Char)
        = (p ++ [q, q, q] ++ c ++ [q, q]) ++ [q] by simp,
      pyEndswith_concat]
  have h3q : pyEndswith (p ++ [q, q, q] ++ c ++ [q, q, q]) [q, q, q] = true := by
    rw [pyEndswith_iff]
    exact ⟨p ++ [q, q, q] ++ c, by simp⟩
  have hcond3 : pyEndswith (p ++ [q, q, q] ++ c ++ [q, q, q]) [DQ, DQ, DQ] = true
      ∨ pyEndswith (p ++ [q, q, q] ++ c ++ [q, q, q]) [SQ, SQ, SQ] = true := by
    rcases hq with hq1 | hq1 <;> subst hq1
    · exact Or.inl h3q
    · exact Or.inr h3q
  have hfind : pyFindIdx (p ++ [q, q, q] ++ c ++ [q, q, q]) q = p.length := by
    unfold pyFindIdx
    rw [show (p ++ [q, q, q] ++ c ++ [q, q, q] : List Char)
        = p ++ q :: ([q, q] ++ c ++ [q, q, q]) by simp]
    exact findIdx_append_first _ (fun ch h => by
      rcases hq with hq1 | hq1 <;> subst hq1
      · exact (hp ch h).1
      · exact (hp ch h).2)
  have htake : (p ++ [q, q, q] ++ c ++ [q, q, q] : List Char).take (1 + p.length + 2)
      = p ++ [q, q, q] := by
    rw [show (p ++ [q, q, q] ++ c ++ [q, q, q] : List Char)
        = (p ++ [q, q, q]) ++ (c ++ [q, q, q]) by simp]
    exact List.take_left' (by simp; omega)
  have hdrop : (p ++ [q, q, q] ++ c ++ [q, q, q] : List Char).drop (p.length + c.length + 3)
      = [q, q, q] := by
    rw [show (p ++ [q, q, q] ++ c ++ [q, q, q] : List Char)
        = (p ++ [q, q, q] ++ c) ++ [q, q, q] by simp]
    exact List.drop_left' (by simp; omega)
  rcases hq with hq1 | hq1 <;> subst hq1
  · have hD : pyEndswith (p ++ [DQ, DQ, DQ] ++ c ++ [DQ, DQ, DQ]) [DQ] = true := by
      rw [hSingle DQ]
      decide
    simp only [mute_string]
    rw [if_pos hD, if_pos hcond3, if_pos hcond3, hfind, hlen]
    rw [show p.length + c.length + 6 - 1 - 2 - (1 + p.length + 2) = c.length by omega]
    rw [show p.length + c.length + 6 - 1 - 2 = p.length + c.length + 3 by omega]
    rw [htake, hdrop]
  · have hD : ¬(pyEndswith (p ++ [SQ, SQ, SQ] ++ c ++ [SQ, SQ, SQ]) [DQ] = true) := by
      rw [hSingle DQ]
      decide
    have hS : pyEndswith (p ++ [SQ, SQ, SQ] ++ c ++ [SQ, SQ, SQ]) [SQ] = true := by
      rw [hSingle SQ]
      decide
    simp only [mute_string]
    rw [if_neg hD, if_pos hS, if_pos hcond3, if_pos hcond3, hfind, hlen]
    rw [show p.length + c.length + 6 - 1 - 2 - (1 + p.length + 2) = c.length by omega]
    rw [show p.length + c.length + 6 - 1 - 2 = p.length + c.length + 3 by omega]
    rw [htake, hdrop]


/-- C6: on every well-formed string-literal token text, `mute_string`
preserves the length and is idempotent on its own output. -/
theorem mute_string_length_and_idempotent (t : List Char) (h : WellformedLit t) :
    (mute_string t).length = t.length ∧ mute_string (mute_string t) = mute_string t := by
  obtain ⟨p, c, q, hq, hpAlpha, hcase⟩ := h
  have hp : ∀ ch ∈ p, ch ≠ DQ ∧ ch ≠ SQ := by
    intro ch hch
    have halpha := hpAlpha ch hch
    constructor <;> intro he <;> subst he <;> revert halpha <;> decide
  have hxq : q ∉ List.replicate c.length 'x' := by
    intro hmem
    have hx : q = 'x' := (List.mem_replicate.1 hmem).2
    rcases hq with hq' | hq' <;> rw [hq'] at hx <;> revert hx <;> decide
  rcases hcase with ⟨ht, hc⟩ | ht
  · subst ht
    rw [mute_single p c q hq hp hc]
    constructor
    · simp
    · rw [mute_single p (List.replicate c.length 'x') q hq hp hxq]
      simp
  · subst ht
    rw [mute_triple p c q hq hp]
    constructor
    · simp
    · rw [mute_triple p (List.replicate c.length 'x') q hq hp]
      simp

/-- C6 witness: the literal text `r'abc'` is well-formed and the theorem's
conclusions hold on it. -/
theorem mute_string_length_and_idempotent_witness :
    WellformedLit ("r".toList ++ [SQ] ++ "abc".toList ++ [SQ]) ∧
      ((mute_string ("r".toList ++ [SQ] ++ "abc".toList ++ [SQ])).length
          = ("r".toList ++ [SQ] ++ "abc".toList ++ [SQ]).length ∧
        mute_string (mute_string ("r".toList ++ [SQ] ++ "abc".toList ++ [SQ]))
          = mute_string ("r".toList ++ [SQ] ++ "abc".toList ++ [SQ])) := by
  have hwf : WellformedLit ("r".toList ++ [SQ] ++ "abc".toList ++ [SQ]) := by
    refine ⟨"r".toList, "abc".toList, SQ, Or.inr rfl, ?_, Or.inl ⟨rfl, ?_⟩⟩
    · decide
    · decide
  exact ⟨hwf, mute_string_length_and_idempotent _ hwf⟩

/-- C5: `indentation_level` is a pure function of its input string computed by
the left-to-right scan in which a space adds 1, a tab advances the running
total to the next multiple of 8 (`nextTabStop`, proved least such multiple),
and the first other character stops the scan. -/
theorem indentation_level_matches_spec :
    (∀ s, indentation_level s = indentationSpecScan 0 s) ∧
    (∀ r, 8 ∣ nextTabStop r ∧ r < nextTabStop r ∧
      ∀ m, 8 ∣ m → r < m → nextTabStop r ≤ m) :=
  ⟨fun s => indentationLevelFrom_eq_spec s 0, nextTabStop_least⟩

/-! ### Tokens -/

/-- The token kinds of the `tokenize` module that `pep8.py` distinguishes. -/
inductive TokenType where
  | NAME
  | OP
  | STRING
  | NUMBER
  | COMMENT
  | NEWLINE
  | NL
  | INDENT
  | DEDENT
  | ENDMARKER
  | ERRORTOKEN
deriving DecidableEq, Repr

/-- A `tokenize` 5-tuple `(type, text, start, end, line)`; rows and columns
are the non-negative integers the tokenizer produces. -/
structure Token where
  type : TokenType
  text : List Char
  start : Nat × Nat
  tokEnd : Nat × Nat
  line : List Char
deriving DecidableEq, Repr

/-- `SKIP_TOKENS = frozenset([COMMENT, NL, INDENT, DEDENT, NEWLINE])` -/
def SKIP_TOKENS : List TokenType :=
  [TokenType.COMMENT, TokenType.NL, TokenType.INDENT, TokenType.DEDENT, TokenType.NEWLINE]

/-! ### `Document` -/

/-- `most_common_indent_char` specialised to the default
`indent_chars = ' \t'`: concatenate every line's leading indentation and pick
the majority character; Python's `max` over the `(count, char)` pairs returns
`'\t'` exactly when its count is strictly larger (on a tie the lexicographic
comparison prefers the larger character `' '`). -/
def most_common_indent_char (listOfStrings : List (List Char)) : Char :=
  let allIndentation :=
    (listOfStrings.map (fun line => leading_indentation line INDENTATION_WHITESPACE)).flatten
  if allIndentation.count ' ' < allIndentation.count '\t' then '\t' else ' '

/-- The `Document` object: the raw lines, the line count and majority indent
character computed at construction, and the read cursor. -/
structure Document where
  lines : List (List Char)
  num_lines : Nat
  indent_char : Char
  line_number : Nat
deriving DecidableEq, Repr

/-- `Document.__init__(lines)`. -/
def Document.make (lines : List (List Char)) : Document :=
  { lines := lines
    num_lines := lines.length
    indent_char := most_common_indent_char lines
    line_number := 0 }

/-- `Document.readline`: return `lines[line_number]`, or `""` once the index
is out of range (`IndexError` is caught), and increment `line_number`. -/
def Document.readline (d : Document) : List Char × Document :=
  let line := match d.lines.get? d.line_number with
    | some l => l
    | none => []
  (line, { d with line_number := d.line_number + 1 })

/-- C10: `Document.readline` is total: every call increments `line_number` by
exactly one and leaves the stored lines untouched, and once `line_number` is
at least the number of stored lines the returned line is the empty string. -/
theorem readline_total (d : Document) :
    (d.readline.2.line_number = d.line_number + 1 ∧ d.readline.2.lines = d.lines) ∧
    (d.line_number ≥ d.lines.length → d.readline.1 = []) := by
  refine ⟨⟨rfl, rfl⟩, fun h => ?_⟩
  unfold Document.readline
  have hnone : d.lines.get? d.line_number = none := List.get?_eq_none.2 h
  rw [hnone]

/-- C10 witness: reading past the end of a two-line document increments the
cursor and returns the empty string. -/
theorem readline_total_witness :
    ((Document.mk ["a".toList, "b".toList] 2 ' ' 7).readline.2.line_number = 8 ∧
      (Document.mk ["a".toList, "b".toList] 2 ' ' 7).readline.2.lines
        = ["a".toList, "b".toList]) ∧
    (Document.mk ["a".toList, "b".toList] 2 ' ' 7).readline.1 = [] := by
  have h := readline_total (Document.mk ["a".toList, "b".toList] 2 ' ' 7)
  exact ⟨h.1, h.2 (by decide)⟩

/-! ### `LogicalLine` and offset resolution -/

/-- A `LogicalLine` with the fields set by the pipeline (`logical_lines` plus
`check_all`, which assigns `line_number`). -/
structure LogicalLine where
  logical_line : List Char
  line_number : Nat
  tokens : List Token
  blank_lines : Nat
  blank_lines_before_comment : Nat
  token_offset_mapping : List (Nat × Token)
deriving DecidableEq, Repr

/-- `LogicalLine.__init__` computes `indentation_level(leading_indentation(
logical_line))` once and stores it as `indent_level`. -/
def LogicalLine.indent_level (ll : LogicalLine) : Nat :=
  indentation_level (leading_indentation ll.logical_line INDENTATION_WHITESPACE)

/-- `LogicalLine.__init__` stores `logical_line[len(indentation):]` as
`dedented_line`. -/
def LogicalLine.dedented_line (ll : LogicalLine) : List Char :=
  ll.logical_line.drop (leading_indentation ll.logical_line INDENTATION_WHITESPACE).length

/-- The `column` argument of `original_location_for_column`: `None`, a plain
integer offset, or a `(row, column)` pair. -/
inductive ReportedColumn where
  | absent
  | intCol (c : Nat)
  | pairCol (r c : Nat)
deriving DecidableEq, Repr

/-- The comparison `column >= token_offset` the source performs between a
tuple and an integer: under Python 2's cross-type ordering every tuple
compares greater than every integer, so it is identically true. -/
def pyTupleGeInt (_column : Nat × Nat) (_tokenOffset : Nat) : Bool := true

/-- `LogicalLine.original_location_for_column`.  `none` models an uncaught
exception: with a pair column and an empty `token_offset_mapping` the loop
never assigns `original_line_number`, so the `return` raises
`UnboundLocalError`.  Note the branches: an `int` column is returned verbatim
with `line_number`, while a *tuple* column is run through the mapping scan
using only its second component. -/
def LogicalLine.original_location_for_column (ll : LogicalLine) :
    ReportedColumn → Option (Nat × Int)
  | ReportedColumn.absent => some (ll.line_number, 0)
  | ReportedColumn.pairCol r c =>
      ll.token_offset_mapping.foldl
        (fun acc entry =>
          if pyTupleGeInt (r, c) entry.1 then
            some (entry.2.start.1, (entry.2.start.2 : Int) + (c : Int) - (entry.1 : Int))
          else acc)
        none
  | ReportedColumn.intCol c => some (ll.line_number, (c : Int))

/-- The claim's resolution rule for a plain integer offset `c`: take the last
mapping entry `(off, t)` with `off ≤ c` and return
`(t.start.row, t.start.col + (c - off))`. -/
def claimedIntLocation (ll : LogicalLine) (c : Nat) : Option (Nat × Int) :=
  match (ll.token_offset_mapping.filter (fun entry => entry.1 ≤ c)).getLast? with
  | some (off, t) => some (t.start.1, (t.start.2 : Int) + (c : Int) - (off : Int))
  | none => none

/-- A concrete token whose recorded offset is 0 and whose start is row 2,
column 4 (as produced for the first token of an indented continuation line,
say). -/
def c1Token : Token :=
  { type := TokenType.NAME
    text := "a".toList
    start := (2, 4)
    tokEnd := (2, 5)
    line := "    a".toList }

/-- A `LogicalLine` whose statement ended on row 5 but whose only token starts
at row 2, column 4. -/
def c1Line : LogicalLine :=
  { logical_line := "    a".toList
    line_number := 5
    tokens := [c1Token]
    blank_lines := 0
    blank_lines_before_comment := 0
    token_offset_mapping := [(0, c1Token)] }

/-- C1: refuted.  On a `LogicalLine` with a non-empty mapping, a plain integer
offset is returned verbatim with `line_number` and the mapping is never
consulted: resolving offset 0 — the recorded offset of the token's own start —
yields `(5, 0)`, not the token's start `(2, 4)` required by the claim (which
`claimedIntLocation`, written from the spec's words, does produce). -/
theorem original_location_int_ignores_mapping :
    c1Line.token_offset_mapping ≠ [] ∧
    c1Line.original_location_for_column (ReportedColumn.intCol 0) = some (5, 0) ∧
    claimedIntLocation c1Line 0 = some (2, 4) ∧
    ((5, 0) : Nat × Int) ≠ ((2, 4) : Nat × Int) := by
  refine ⟨by decide, rfl, rfl, by decide⟩

/-- A token starting at row 5, column 10. -/
def c3Token : Token :=
  { type := TokenType.NAME
    text := "spam".toList
    start := (5, 10)
    tokEnd := (5, 14)
    line := "          spam".toList }

/-- A `LogicalLine` whose only mapping entry is `(0, c3Token)`. -/
def c3Line : LogicalLine :=
  { logical_line := "spam".toList
    line_number := 1
    tokens := [c3Token]
    blank_lines := 0
    blank_lines_before_comment := 0
    token_offset_mapping := [(0, c3Token)] }

/-- C3: refuted.  A `(row, column)` pair is not returned verbatim: the tuple
branch scans `token_offset_mapping` (its guard, a Python 2 tuple-versus-int
comparison, always holds) and rebuilds the location from the last entry, so
the pair `(1, 4)` resolves to `(5, 14)`, not `(1, 4)`. -/
theorem original_location_pair_not_verbatim :
    c3Line.original_location_for_column (ReportedColumn.pairCol 1 4) = some (5, 14) ∧
    some ((5, 14) : Nat × Int) ≠ some ((1, 4) : Nat × Int) := by
  exact ⟨rfl, by decide⟩

/-! ### The `BlankLines` logical checker -/

/-- The errors `BlankLines.find_error` can return; `E303` and `E302` carry the
`max_blank_lines` context (their column is the constant 0 in the source). -/
inductive BlankLinesErr where
  | E304
  | E303 (count : Nat)
  | E301
  | E302 (count : Nat)
deriving DecidableEq, Repr

/-- `DOCSTRING_REGEX = re.compile(r'u?r?["…']')` matched at the start of the
string: an optional `u`, an optional `r`, then a quote. -/
def docstringMatch (s : List Char) : Bool :=
  let s1 := match s with
    | 'u' :: rest => rest
    | _ => s
  let s2 := match s1 with
    | 'r' :: rest => rest
    | _ => s1
  match s2 with
  | ch :: _ => ch = DQ ∨ ch = SQ
  | [] => false

/-- `BlankLines.find_error`.  Python truthiness: `not previous_line` is
`previous_line is None` (a `LogicalLine` object is always truthy),
`if max_blank_lines:` is `max_blank_lines ≠ 0`, and
`line.indent_level and max_blank_lines == 2` is
`indent_level ≠ 0 ∧ max_blank_lines = 2`. -/
def blankLinesFindError (line : LogicalLine) (previous_line : Option LogicalLine) :
    Option BlankLinesErr :=
  if line.line_number = 1 ∨ previous_line = none then none
  else
    match previous_line with
    | none => none
    | some previous =>
      let max_blank_lines := max line.blank_lines line.blank_lines_before_comment
      if pyStartswith previous.dedented_line ['@'] then
        if max_blank_lines ≠ 0 then some BlankLinesErr.E304 else none
      else if max_blank_lines > 2 ∨ (line.indent_level ≠ 0 ∧ max_blank_lines = 2) then
        some (BlankLinesErr.E303 max_blank_lines)
      else if pyStartswith line.dedented_line "def ".toList
          ∨ pyStartswith line.dedented_line "class ".toList
          ∨ pyStartswith line.dedented_line ['@'] then
        if line.indent_level ≠ 0 then
          if ¬(max_blank_lines ≠ 0 ∨ previous.indent_level < line.indent_level
              ∨ docstringMatch previous.logical_line) then
            some BlankLinesErr.E301
          else none
        else if max_blank_lines ≠ 2 then
          some (BlankLinesErr.E302 max_blank_lines)
        else none
      else none

/-- The previous logical line `def a():` for the C7 inputs. -/
def c7Previous : LogicalLine :=
  { logical_line := "def a():".toList
    line_number := 1
    tokens := []
    blank_lines := 0
    blank_lines_before_comment := 0
    token_offset_mapping := [] }

/-- A top-level `def b():` preceded by three blank lines. -/
def c7Line : LogicalLine :=
  { logical_line := "def b():".toList
    line_number := 6
    tokens := []
    blank_lines := 3
    blank_lines_before_comment := 0
    token_offset_mapping := [] }

/-- C7 counterexample: a top-level `def` preceded by three blank lines (not
exactly 2, so the claim demands E302 with count 3) is reported by the earlier
too-many-blank-lines branch as E303 instead. -/
theorem blank_lines_three_blanks_counterexample :
    blankLinesFindError c7Line (some c7Previous) = some (BlankLinesErr.E303 3) ∧
      some (BlankLinesErr.E303 3) ≠ some (BlankLinesErr.E302 3) :=
  ⟨by decide, by decide⟩

/-- C7 (amended): for a logical line that starts a top-level
function/class/decorator statement, is not the file's first statement, and
whose previous line is not a decorator, the checker reports E302 with the
found count exactly when the count of preceding blank lines is 0 or 1; a
count of exactly 2 yields no diagnostic, and a count above 2 is taken by the
earlier branch, which reports E303 (too many blank lines) instead. -/
theorem blank_lines_top_level_def (line previous : LogicalLine)
    (h1 : line.line_number ≠ 1)
    (h2 : pyStartswith previous.dedented_line ['@'] = false)
    (h3 : pyStartswith line.dedented_line "def ".toList = true
        ∨ pyStartswith line.dedented_line "class ".toList = true
        ∨ pyStartswith line.dedented_line ['@'] = true)
    (h4 : line.indent_level = 0) :
    blankLinesFindError line (some previous) =
      (if max line.blank_lines line.blank_lines_before_comment > 2 then
        some (BlankLinesErr.E303 (max line.blank_lines line.blank_lines_before_comment))
      else if max line.blank_lines line.blank_lines_before_comment ≠ 2 then
        some (BlankLinesErr.E302 (max line.blank_lines line.blank_lines_before_comment))
      else none) := by
  have hnot1 : ¬(line.line_number = 1 ∨ (some previous : Option LogicalLine) = none) := by
    rintro (h | h)
    · exact h1 h
    · exact Option.noConfusion h
  have hnotdec : ¬(pyStartswith previous.dedented_line ['@'] = true) := by
    rw [h2]
    exact Bool.false_ne_true
  unfold blankLinesFindError
  rw [if_neg hnot1]
  dsimp only
  rw [if_neg hnotdec]
  by_cases hmax : max line.blank_lines line.blank_lines_before_comment > 2
  · rw [if_pos (Or.inl hmax), if_pos hmax]
  · have hnot2 : ¬(max line.blank_lines line.blank_lines_before_comment > 2
        ∨ (line.indent_level ≠ 0 ∧ max line.blank_lines line.blank_lines_before_comment = 2)) := by
      rintro (h | ⟨h, _⟩)
      · exact hmax h
      · exact h h4
    rw [if_neg hnot2, if_pos h3, if_neg (show ¬(line.indent_level ≠ 0) from fun h => h h4),
      if_neg hmax]

/-- C7 witness input: a top-level `def b():` preceded by exactly one blank
line (spec scenario 4). -/
def c7wLine : LogicalLine :=
  { logical_line := "def b():".toList
    line_number := 4
    tokens := []
    blank_lines := 1
    blank_lines_before_comment := 0
    token_offset_mapping := [] }

/-- C7 witness: one blank line between two top-level defs yields exactly the
expected-2-blank-lines diagnostic with found count 1. -/
theorem blank_lines_top_level_def_witness :
    blankLinesFindError c7wLine (some c7Previous) = some (BlankLinesErr.E302 1) :=
  (blank_lines_top_level_def c7wLine c7Previous (by decide) (by decide)
    (Or.inl (by decide)) (by decide)).trans (by decide)

/-! ### The `MissingWhitespaceAfterSeparator` logical checker -/

/-- The E231 error: column and offending separator. -/
structure MissingWhitespaceAfterSeparatorErr where
  column : Nat
  separator : Char
deriving DecidableEq, Repr

/-- The body of one iteration of `MissingWhitespaceAfterSeparator.find_error`
at `index`: the source indexes `line[index]` and `line[index + 1]` only for
`index < len(line) - 1`, so both accesses are in range; the `getD` default
`' '` is never the result of an in-range read that matters (a space is not a
separator and satisfies the whitespace test). -/
def e231Check (line : List Char) (index : Nat) :
    Option MissingWhitespaceAfterSeparatorErr :=
  let char := line.getD index ' '
  let next := line.getD (index + 1) ' '
  if (char = ',' ∨ char = ';' ∨ char = ':') ∧ next ∉ INDENTATION_WHITESPACE then
    let before := line.take index
    if char = ':' ∧ before.count '[' > before.count ']' then none
    else if char = ',' ∧ next = ')' then none
    else some { column := index, separator := char }
  else none

/-- The `for index in range(len(line) - 1)` loop, with `continue` modelled by
recursing to the next index. -/
def mwasGo (line : List Char) : Nat → Nat → Option MissingWhitespaceAfterSeparatorErr
  | _, 0 => none
  | index, fuel + 1 =>
    match e231Check line index with
    | some err => some err
    | none => mwasGo line (index + 1) fuel

/-- `MissingWhitespaceAfterSeparator.find_error` on the logical-line text. -/
def missingWhitespaceAfterSeparatorFindError (line : List Char) :
    Option MissingWhitespaceAfterSeparatorErr :=
  mwasGo line 0 (line.length - 1)

/-- The claim's flagging condition at index `i`: `i < len(text) - 1`,
`text[i]` is a separator not followed by a space or tab, with the
slice-colon and single-element-tuple exceptions. -/
def ClaimFlagged (line : List Char) (i : Nat) : Prop :=
  i + 1 < line.length ∧
  (line.getD i ' ' = ',' ∨ line.getD i ' ' = ';' ∨ line.getD i ' ' = ':') ∧
  line.getD (i + 1) ' ' ∉ INDENTATION_WHITESPACE ∧
  ¬(line.getD i ' ' = ':' ∧ (line.take i).count '[' > (line.take i).count ']') ∧
  ¬(line.getD i ' ' = ',' ∧ line.getD (i + 1) ' ' = ')')

instance (line : List Char) (i : Nat) : Decidable (ClaimFlagged line i) := by
  unfold ClaimFlagged
  infer_instance

theorem e231Check_some_iff (line : List Char) (i : Nat)
    (err : MissingWhitespaceAfterSeparatorErr) :
    e231Check line i = some err ↔
      ClaimFlagged line i ∧ err = ⟨i, line.getD i ' '⟩ := by
  unfold e231Check ClaimFlagged
  constructor
  · intro h
    by_cases hmain : (line.getD i ' ' = ',' ∨ line.getD i ' ' = ';' ∨ line.getD i ' ' = ':')
        ∧ line.getD (i + 1) ' ' ∉ INDENTATION_WHITESPACE
    · rw [if_pos hmain] at h
      have hbound : i + 1 < line.length := by
        by_contra hge
        have hdef : line.getD (i + 1) ' ' = ' ' := List.getD_eq_default _ _ (by omega)
        exact hmain.2 (by rw [hdef]; exact List.mem_cons_self _ _)
      by_cases hslice : line.getD i ' ' = ':'
          ∧ (line.take i).count '[' > (line.take i).count ']'
      · rw [if_pos hslice] at h
        exact absurd h (Option.noConfusion)
      · rw [if_neg hslice] at h
        by_cases htuple : line.getD i ' ' = ',' ∧ line.getD (i + 1) ' ' = ')'
        · rw [if_pos htuple] at h
          exact absurd h (Option.noConfusion)
        · rw [if_neg htuple] at h
          exact ⟨⟨hbound, hmain.1, hmain.2, hslice, htuple⟩, (Option.some.inj h).symm⟩
    · rw [if_neg hmain] at h
      exact absurd h (Option.noConfusion)
  · rintro ⟨⟨_, hsep, hws, hslice, htuple⟩, rfl⟩
    rw [if_pos ⟨hsep, hws⟩, if_neg hslice, if_neg htuple]

theorem mwasGo_some (line : List Char) :
    ∀ (fuel i : Nat) (err : MissingWhitespaceAfterSeparatorErr),
      mwasGo line i fuel = some err →
      ClaimFlagged line err.column ∧ err.separator = line.getD err.column ' ' ∧
        i ≤ err.column ∧ ∀ j, i ≤ j → j < err.column → ¬ClaimFlagged line j := by
  intro fuel
  induction fuel with
  | zero => intro i err h; exact absurd h (Option.noConfusion)
  | succ n ih =>
    intro i err h
    unfold mwasGo at h
    cases hc : e231Check line i with
    | some e =>
      rw [hc] at h
      obtain ⟨hflag, herr⟩ := (e231Check_some_iff line i e).1 hc
      have he : err = e := (Option.some.inj h).symm
      subst he
      subst herr
      have hcol : (⟨i, line.getD i ' '⟩ : MissingWhitespaceAfterSeparatorErr).column = i := rfl
      exact ⟨hflag, rfl, le_refl _, fun j hij hj => by rw [hcol] at hj; omega⟩
    | none =>
      rw [hc] at h
      obtain ⟨hflag, hsep, hle, hmin⟩ := ih (i + 1) err h
      refine ⟨hflag, hsep, by omega, fun j hij hj => ?_⟩
      rcases Nat.eq_or_lt_of_le hij with hji | hji
      · intro hcl
        have : e231Check line j = some ⟨j, line.getD j ' '⟩ :=
          (e231Check_some_iff line j _).2 ⟨hcl, rfl⟩
        rw [← hji] at this
        rw [hc] at this
        exact Option.noConfusion this
      · exact hmin j (by omega) hj

theorem mwasGo_none (line : List Char) :
    ∀ (fuel i : Nat),
      mwasGo line i fuel = none ↔ ∀ j, i ≤ j → j < i + fuel → ¬ClaimFlagged line j := by
  intro fuel
  induction fuel with
  | zero =>
    intro i
    constructor
    · intro _ j h1 h2
      omega
    · intro _
      rfl
  | succ n ih =>
    intro i
    unfold mwasGo
    cases hc : e231Check line i with
    | some e =>
      simp only [reduceCtorEq, false_iff]
      intro hall
      obtain ⟨hflag, _⟩ := (e231Check_some_iff line i e).1 hc
      exact hall i (le_refl _) (by omega) hflag
    | none =>
      rw [ih (i + 1)]
      constructor
      · intro hall j h1 h2
        rcases Nat.eq_or_lt_of_le h1 with hji | hji
        · intro hcl
          have : e231Check line j = some ⟨j, line.getD j ' '⟩ :=
            (e231Check_some_iff line j _).2 ⟨hcl, rfl⟩
          rw [← hji] at this
          rw [hc] at this
          exact Option.noConfusion this
        · exact hall j (by omega) (by omega)
      · intro hall j h1 h2
        exact hall j (by omega) (by omega)

theorem ClaimFlagged_lt (line : List Char) (j : Nat) (h : ClaimFlagged line j) :
    j < line.length - 1 := by
  obtain ⟨hb, _⟩ := h
  omega

/-- C8: `MissingWhitespaceAfterSeparator.find_error` returns E231 exactly at
the first index satisfying the claim's condition (separator not followed by
space or tab, minus the slice-colon and single-element-tuple exceptions),
carrying that index and separator, and returns no diagnostic iff no index
satisfies it. -/
theorem missing_whitespace_after_separator_first_index (line : List Char) :
    (∀ err, missingWhitespaceAfterSeparatorFindError line = some err →
      ClaimFlagged line err.column ∧ err.separator = line.getD err.column ' ' ∧
        ∀ j, j < err.column → ¬ClaimFlagged line j) ∧
    (missingWhitespaceAfterSeparatorFindError line = none ↔
      ∀ i, ¬ClaimFlagged line i) := by
  constructor
  · intro err h
    obtain ⟨hflag, hsep, _, hmin⟩ :=
      mwasGo_some line (line.length - 1) 0 err h
    exact ⟨hflag, hsep, fun j hj => hmin j (Nat.zero_le _) hj⟩
  · rw [missingWhitespaceAfterSeparatorFindError, mwasGo_none line (line.length - 1) 0]
    constructor
    · intro hall i hcl
      exact hall i (Nat.zero_le _) (by have := ClaimFlagged_lt line i hcl; omega) hcl
    · intro hall j _ _
      exact hall j

/-- C8 witness: on `foo(bar,baz)` the checker flags the comma at index 7, and
index 7 indeed satisfies the claim's condition. -/
theorem missing_whitespace_after_separator_first_index_witness :
    missingWhitespaceAfterSeparatorFindError "foo(bar,baz)".toList
        = some ⟨7, ','⟩ ∧
      ClaimFlagged "foo(bar,baz)".toList 7 := by
  refine ⟨by decide, ?_⟩
  exact ((missing_whitespace_after_separator_first_index "foo(bar,baz)".toList).1
    ⟨7, ','⟩ (by decide)).1

/-! ### The `WhitespaceBeforeParameters` logical checker -/

/-- The Python 2 keyword list (`keyword.kwlist`), as used by
`keyword.iskeyword`. -/
def python2Keywords : List String :=
  ["and", "as", "assert", "break", "class", "continue", "def", "del",
   "elif", "else", "except", "exec", "finally", "for", "from", "global",
   "if", "in", "is", "lambda", "not", "or", "pass", "print",
   "raise", "return", "try", "while", "with", "yield", "import"]

/-- `keyword.iskeyword(s)` under Python 2. -/
def pyIsKeyword (s : List Char) : Bool :=
  python2Keywords.any (fun k => k.toList = s)

/-- The E211 error: `WhitespaceBeforeParametersError(prev_end, text)` carries
the previous token's end coordinates as column and the bracket as context. -/
structure WhitespaceBeforeParametersErr where
  column : Nat × Nat
  context : List Char
deriving DecidableEq, Repr

/-- The `for index in range(1, len(tokens))` loop of
`WhitespaceBeforeParameters.find_error`; `prev2Text` is
`tokens[index - 2][1]` (or `none` while `index < 2`), so the source guard
`index < 2 or tokens[index - 2][1] != 'class'` is `prev2Text ≠ some "class"`. -/
def wbpGo (prev2Text : Option (List Char)) (prevType : TokenType) (prevText : List Char)
    (prevEnd : Nat × Nat) : List Token → Option WhitespaceBeforeParametersErr
  | [] => none
  | token :: rest =>
    if token.type = TokenType.OP ∧ pyInStr token.text ['(', '[']
        ∧ token.start ≠ prevEnd
        ∧ (prevType = TokenType.NAME ∨ pyInStr prevText CLOSE_PARENS)
        ∧ prev2Text ≠ some "class".toList
        ∧ ¬ pyIsKeyword prevText then
      some { column := prevEnd, context := token.text }
    else wbpGo (some prevText) token.type token.text token.tokEnd rest

/-- `WhitespaceBeforeParameters.find_error`: it starts with `tokens[0]`, which
raises `IndexError` when the line's token list is empty. -/
def whitespaceBeforeParametersFindError (line : LogicalLine) :
    Except String (Option WhitespaceBeforeParametersErr) :=
  match line.tokens with
  | [] => Except.error "IndexError"
  | t0 :: rest => Except.ok (wbpGo none t0.type t0.text t0.tokEnd rest)

/-- A `LogicalLine` whose token list is empty. -/
def c4EmptyLine : LogicalLine :=
  { logical_line := []
    line_number := 1
    tokens := []
    blank_lines := 0
    blank_lines_before_comment := 0
    token_offset_mapping := [] }

/-- C4: refuted for the registered logical checker
`WhitespaceBeforeParameters`: on a `LogicalLine` with an empty token list its
`find_error` raises `IndexError` (reading `tokens[0]`) instead of returning
no diagnostic. -/
theorem whitespace_before_parameters_empty_tokens_raises :
    whitespaceBeforeParametersFindError c4EmptyLine = Except.error "IndexError" := rfl

/-! ### The `MaximumLineLength` physical checker -/

/-- The bytes stripped by Python 2 `str.rstrip()` on a byte string. -/
def pyIsSpaceByte (b : Nat) : Bool :=
  b = 32 ∨ b = 9 ∨ b = 10 ∨ b = 13 ∨ b = 11 ∨ b = 12

/-- Python 2 `line.rstrip()` on a byte string. -/
def pyRstripBytes (s : List Nat) : List Nat :=
  (s.reverse.dropWhile pyIsSpaceByte).reverse

/-- A UTF-8 continuation byte `0x80..0xBF`. -/
def isCont (b : Nat) : Bool := 0x80 ≤ b ∧ b < 0xC0

/-- Decode one UTF-8 code point from the front of a byte string (strict, as
Python's `decode('utf-8')`: no overlong forms, no surrogates, at most
`U+10FFFF`), returning the code point and the remaining bytes. -/
def utf8DecodeOne : List Nat → Option (Nat × List Nat)
  | [] => none
  | b :: rest =>
    if b < 0x80 then some (b, rest)
    else if b < 0xC2 then none
    else if b < 0xE0 then
      match rest with
      | b1 :: rest2 =>
        if isCont b1 then some ((b - 0xC0) * 0x40 + (b1 - 0x80), rest2) else none
      | [] => none
    else if b < 0xF0 then
      match rest with
      | b1 :: b2 :: rest2 =>
        if isCont b1 ∧ isCont b2
            ∧ (b ≠ 0xE0 ∨ b1 ≥ 0xA0)
            ∧ (b ≠ 0xED ∨ b1 < 0xA0) then
          some (((b - 0xE0) * 0x40 + (b1 - 0x80)) * 0x40 + (b2 - 0x80), rest2)
        else none
      | _ => none
    else if b < 0xF5 then
      match rest with
      | b1 :: b2 :: b3 :: rest2 =>
        if isCont b1 ∧ isCont b2 ∧ isCont b3
            ∧ (b ≠ 0xF0 ∨ b1 ≥ 0x90)
            ∧ (b ≠ 0xF4 ∨ b1 < 0x90) then
          some ((((b - 0xF0) * 0x40 + (b1 - 0x80)) * 0x40 + (b2 - 0x80)) * 0x40
            + (b3 - 0x80), rest2)
        else none
      | _ => none
    else none

theorem utf8DecodeOne_shrinks (bs : List Nat) (c : Nat) (r : List Nat)
    (h : utf8DecodeOne bs = some (c, r)) : r.length < bs.length := by
  cases bs with
  | nil => exact absurd h (by simp [utf8DecodeOne])
  | cons b rest =>
    unfold utf8DecodeOne at h
    repeat' split at h
    all_goals simp_all
    all_goals omega

/-- Full strict UTF-8 decode, driven by a byte-count fuel (each step consumes
at least one byte, so `bs.length` fuel always suffices); `none` is Python's
`UnicodeDecodeError`. -/
def utf8DecodeAux : Nat → List Nat → Option (List Nat)
  | _, [] => some []
  | 0, _ :: _ => none
  | fuel + 1, b :: rest =>
    match utf8DecodeOne (b :: rest) with
    | none => none
    | some (c, r) => (utf8DecodeAux fuel r).map (fun cps => c :: cps)

/-- `encoded.decode('utf-8')`, returning the code points. -/
def utf8Decode (bs : List Nat) : Option (List Nat) :=
  utf8DecodeAux bs.length bs

theorem utf8DecodeAux_length_le :
    ∀ (fuel : Nat) (bs cps : List Nat), utf8DecodeAux fuel bs = some cps →
      cps.length ≤ bs.length := by
  intro fuel
  induction fuel with
  | zero =>
    intro bs cps h
    cases bs with
    | nil =>
      have : cps = [] := by
        have h2 : (some [] : Option (List Nat)) = some cps := h.symm ▸ rfl
        exact (Option.some.inj (by simpa [utf8DecodeAux] using h)).symm ▸ rfl
      simp [this]
    | cons b rest => exact absurd h (by simp [utf8DecodeAux])
  | succ n ih =>
    intro bs cps h
    cases bs with
    | nil =>
      have : cps = [] := (Option.some.inj (by simpa [utf8DecodeAux] using h)).symm ▸ rfl
      simp [this]
    | cons b rest =>
      unfold utf8DecodeAux at h
      cases hone : utf8DecodeOne (b :: rest) with
      | none => rw [hone] at h; exact absurd h (by simp)
      | some pair =>
        obtain ⟨c, r⟩ := pair
        rw [hone] at h
        obtain ⟨cps2, hcps2, rfl⟩ := Option.map_eq_some'.1 h
        have h1 := ih r cps2 hcps2
        have h2 := utf8DecodeOne_shrinks (b :: rest) c r hone
        simp only [List.length_cons] at *
        omega

theorem utf8Decode_length_le (bs cps : List Nat) (h : utf8Decode bs = some cps) :
    cps.length ≤ bs.length :=
  utf8DecodeAux_length_le bs.length bs cps h

/-- The E501 error: `LineTooLongError.__init__` stores the measured length and
sets `column = max_line_length`. -/
structure LineTooLongErr where
  line_length : Nat
  max_line_length : Nat
  column : Nat
deriving DecidableEq, Repr

/-- `MaximumLineLength.DEFAULT_MAX_LINE_LENGTH = 79`. -/
def DEFAULT_MAX_LINE_LENGTH : Nat := 79

/-- `MaximumLineLength.find_error` (Python 2 branch: the physical line is a
byte string; when the byte length exceeds the limit the length is re-measured
as UTF-8 code points, falling back to the byte length on
`UnicodeDecodeError`). -/
def maximumLineLengthFindError (maxLineLength : Nat) (physicalLine : List Nat) :
    Option LineTooLongErr :=
  let stripped := pyRstripBytes physicalLine
  let length0 := stripped.length
  let length :=
    if length0 > maxLineLength then
      match utf8Decode stripped with
      | some decoded => decoded.length
      | none => length0
    else length0
  if length > maxLineLength then
    some { line_length := length
           max_line_length := maxLineLength
           column := maxLineLength }
  else none

/-- The claim's "rendered length after accounting for multi-byte characters":
the UTF-8 code-point count of the right-stripped line, or its byte count when
it does not decode. -/
def renderedLength (physicalLine : List Nat) : Nat :=
  match utf8Decode (pyRstripBytes physicalLine) with
  | some decoded => decoded.length
  | none => (pyRstripBytes physicalLine).length

/-- C9: the line-length check fires iff the rendered length of the physical
line exceeds the configured maximum, and the diagnostic then carries the
rendered length and reports the configured maximum as its column. -/
theorem maximum_line_length_iff (maxLineLength : Nat) (physicalLine : List Nat) :
    ((maximumLineLengthFindError maxLineLength physicalLine).isSome
        ↔ renderedLength physicalLine > maxLineLength) ∧
    (∀ err, maximumLineLengthFindError maxLineLength physicalLine = some err →
      err.column = maxLineLength ∧ err.line_length = renderedLength physicalLine) := by
  unfold maximumLineLengthFindError renderedLength
  dsimp only
  cases hdec : utf8Decode (pyRstripBytes physicalLine) with
  | some decoded =>
    dsimp only
    have hle : decoded.length ≤ (pyRstripBytes physicalLine).length :=
      utf8Decode_length_le _ _ hdec
    by_cases hlen : (pyRstripBytes physicalLine).length > maxLineLength
    · rw [if_pos hlen]
      by_cases hr : decoded.length > maxLineLength
      · rw [if_pos hr]
        exact ⟨by simp [hr], fun err herr => by
          obtain rfl := Option.some.inj herr
          exact ⟨rfl, rfl⟩⟩
      · rw [if_neg hr]
        exact ⟨by simp [hr], fun err herr => absurd herr (by simp)⟩
    · rw [if_neg hlen]
      have hr : ¬ decoded.length > maxLineLength := by omega
      rw [if_neg hlen]
      exact ⟨by simp [hr], fun err herr => absurd herr (by simp)⟩
  | none =>
    dsimp only
    by_cases hlen : (pyRstripBytes physicalLine).length > maxLineLength
    · rw [if_pos hlen, if_pos hlen]
      exact ⟨by simp [hlen], fun err herr => by
        obtain rfl := Option.some.inj herr
        exact ⟨rfl, rfl⟩⟩
    · rw [if_neg hlen, if_neg hlen]
      exact ⟨by simp [hlen], fun err herr => absurd herr (by simp)⟩

/-- C9 witness: with maximum 2, the line `aaa` followed by a newline byte
renders at length 3 and is flagged with column 2 and measured length 3. -/
theorem maximum_line_length_iff_witness :
    (maximumLineLengthFindError 2 [97, 97, 97, 10] = some ⟨3, 2, 2⟩) ∧
      renderedLength [97, 97, 97, 10] > 2 ∧
      (⟨3, 2, 2⟩ : LineTooLongErr).column = 2 := by
  have h := (maximum_line_length_iff 2 [97, 97, 97, 10]).1.1 (by decide)
  exact ⟨by decide, h, rfl⟩

/-! ### `build_line_from_tokens` -/

/-- The loop state of `build_line_from_tokens`: the offset mapping, the
output pieces joined so far, the running output length, and the previous
contributing token. -/
structure BuildState where
  mapping : List (Nat × Token)
  logical : List Char
  length : Nat
  previous : Option Token
deriving Repr

/-- The inter-token filler of `build_line_from_tokens` for a contributing
token whose (muted) text is `text`: across rows, a single space unless the
previous character is an open bracket meeting a close bracket (with the
trailing-comma carve-out); within a row, the verbatim slice
`lines[end_line - 1][end:start]`.  `Except.error` is the `IndexError` the raw
`lines[...]` accesses can raise. -/
def buildFill (lines : List (List Char)) (st : BuildState) (token : Token)
    (text : List Char) : Except String (List Char) :=
  match st.previous with
  | none => Except.ok []
  | some previous =>
    if previous.tokEnd.1 ≠ token.start.1 then
      match pyGet lines ((previous.tokEnd.1 : Int) - 1) with
      | none => Except.error "IndexError"
      | some prevLine =>
        match pyGet prevLine ((previous.tokEnd.2 : Int) - 1) with
        | none => Except.error "IndexError"
        | some prevChar =>
          if prevChar = ',' ∨ (prevChar ∉ OPEN_PARENS ∧ ¬ pyInStr text CLOSE_PARENS) then
            Except.ok [' ']
          else Except.ok []
    else if previous.tokEnd.2 ≠ token.start.2 then
      match pyGet lines ((previous.tokEnd.1 : Int) - 1) with
      | none => Except.error "IndexError"
      | some prevLine => Except.ok ((prevLine.take token.start.2).drop previous.tokEnd.2)
    else Except.ok []

/-- One iteration of the token loop of `build_line_from_tokens`: skip
`SKIP_TOKENS`, mute STRING tokens, insert the inter-token filler, record
`(length-so-far, token)` *before* appending the token text. -/
def buildStep (lines : List (List Char)) (st : BuildState) (token : Token) :
    Except String BuildState :=
  if token.type ∈ SKIP_TOKENS then Except.ok st
  else
    let text := if token.type = TokenType.STRING then mute_string token.text else token.text
    match buildFill lines st token text with
    | Except.error e => Except.error e
    | Except.ok fill =>
      Except.ok
        { mapping := st.mapping ++ [(st.length + fill.length, token)]
          logical := st.logical ++ fill ++ text
          length := st.length + fill.length + text.length
          previous := some token }

/-- `build_line_from_tokens(tokens, lines)`: run the loop, assert the joined
text is its own l/r-strip (`AssertionError` otherwise), then prepend the
first contributing token's leading columns (`first_line[:col]`) and return
the full logical line together with the offset mapping (`mapping[0]` raises
`IndexError` when no token contributed). -/
def build_line_from_tokens (tokens : List Token) (lines : List (List Char)) :
    Except String (List Char × List (Nat × Token)) :=
  match List.foldlM (buildStep lines) ⟨[], [], 0, none⟩ tokens with
  | Except.error e => Except.error e
  | Except.ok st =>
    if pyLstrip st.logical ≠ st.logical then Except.error "AssertionError"
    else if pyRstrip st.logical ≠ st.logical then Except.error "AssertionError"
    else
      match st.mapping.head? with
      | none => Except.error "IndexError"
      | some entry =>
        match pyGet lines ((entry.2.start.1 : Int) - 1) with
        | none => Except.error "IndexError"
        | some first_line =>
          Except.ok (first_line.take entry.2.start.2 ++ st.logical, st.mapping)

theorem dropWhile_length_le {α : Type} (p : α → Bool) (l : List α) :
    (l.dropWhile p).length ≤ l.length := by
  induction l with
  | nil => exact le_refl _
  | cons a l ih =>
    rw [List.dropWhile_cons]
    by_cases h : p a
    · rw [if_pos h]
      exact le_trans ih (by simp)
    · rw [if_neg h]

theorem mute_string_ne_nil (text : List Char) (h : text ≠ []) : mute_string text ≠ [] := by
  cases text with
  | nil => exact absurd rfl h
  | cons c rest =>
    unfold mute_string
    dsimp only
    intro hcontra
    obtain ⟨h1, -⟩ := List.append_eq_nil.1 hcontra
    obtain ⟨h1, -⟩ := List.append_eq_nil.1 h1
    rcases List.take_eq_nil_iff.1 h1 with hS | hnil
    · by_cases h3 : (pyEndswith (c :: rest) [DQ, DQ, DQ] = true
          ∨ pyEndswith (c :: rest) [SQ, SQ, SQ] = true)
      · rw [if_pos h3] at hS
        omega
      · rw [if_neg h3] at hS
        by_cases hD : pyEndswith (c :: rest) [DQ] = true
        · rw [if_pos hD] at hS
          omega
        · rw [if_neg hD] at hS
          by_cases hS2 : pyEndswith (c :: rest) [SQ] = true
          · rw [if_pos hS2] at hS
            omega
          · rw [if_neg hS2] at hS
            omega
    · exact List.noConfusion hnil

theorem buildFold_inv (lines : List (List Char)) :
    ∀ (tokens : List Token) (st st' : BuildState),
      (∀ t ∈ tokens, t.text ≠ []) →
      (st.mapping ≠ [] → st.logical ≠ []) →
      List.foldlM (buildStep lines) st tokens = Except.ok st' →
      (st'.mapping ≠ [] → st'.logical ≠ []) := by
  intro tokens
  induction tokens with
  | nil =>
    intro st st' _ hinv h
    have hst : st = st' := Except.ok.inj h
    exact hst ▸ hinv
  | cons t ts ih =>
    intro st st' hne hinv h
    rw [List.foldlM_cons] at h
    cases hstep : buildStep lines st t with
    | error e =>
      rw [hstep] at h
      exact Except.noConfusion h
    | ok st1 =>
      rw [hstep] at h
      have h2 : List.foldlM (buildStep lines) st1 ts = Except.ok st' := h
      refine ih st1 st' (fun u hu => hne u (List.mem_cons_of_mem _ hu)) ?_ h2
      intro hmap
      have htne : t.text ≠ [] := hne t (List.mem_cons_self _ _)
      unfold buildStep at hstep
      split at hstep
      · have hst : st = st1 := Except.ok.inj hstep
        exact hst ▸ hinv (hst ▸ hmap)
      · dsimp only at hstep
        cases hfillv : buildFill lines st t
            (if t.type = TokenType.STRING then mute_string t.text else t.text) with
        | error e =>
          rw [hfillv] at hstep
          exact Except.noConfusion hstep
        | ok fill =>
          rw [hfillv] at hstep
          have hrec := Except.ok.inj hstep
          rw [← hrec]
          dsimp only
          intro hlognil
          obtain ⟨-, h5⟩ := List.append_eq_nil.1 hlognil
          by_cases hstr : t.type = TokenType.STRING
          · rw [if_pos hstr] at h5
            exact mute_string_ne_nil t.text htne h5
          · rw [if_neg hstr] at h5
            exact htne h5

theorem take_append_drop_length {α : Type} (s : List α) (n : Nat) :
    s.take n ++ s.drop (s.take n).length = s := by
  by_cases h : n ≤ s.length
  · rw [List.length_take, Nat.min_def, if_pos h, List.take_append_drop]
  · push_neg at h
    rw [List.take_of_length_le (le_of_lt h), List.drop_length, List.append_nil]

theorem pyRstrip_append (a l : List Char) (hl : l ≠ []) (hr : pyRstrip l = l) :
    pyRstrip (a ++ l) = a ++ l := by
  have hrevne : l.reverse ≠ [] := fun hcontra => hl (List.reverse_eq_nil_iff.1 hcontra)
  obtain ⟨x, xs, hx⟩ := List.exists_cons_of_ne_nil hrevne
  have hdw : l.reverse.dropWhile pyIsSpace = l.reverse := by
    have := congrArg List.reverse hr
    unfold pyRstrip at this
    rwa [List.reverse_reverse] at this
  have hpx : pyIsSpace x = false := by
    rw [hx, List.dropWhile_cons] at hdw
    by_cases hb : pyIsSpace x = true
    · rw [if_pos hb] at hdw
      have hlen := congrArg List.length hdw
      have hle := dropWhile_length_le pyIsSpace xs
      simp only [List.length_cons] at hlen
      omega
    · exact Bool.eq_false_iff.2 hb
  have hl2 : l = xs.reverse ++ [x] := by
    have := congrArg List.reverse hx
    rwa [List.reverse_reverse, List.reverse_cons] at this
  unfold pyRstrip
  rw [List.reverse_append, hx, List.cons_append, List.dropWhile_cons, hpx]
  simp only [Bool.false_eq_true, if_false, List.reverse_cons, List.reverse_append,
    List.reverse_reverse]
  rw [hl2]
  simp [List.append_assoc]

theorem leading_indentation_append_dedented (ll : LogicalLine) :
    leading_indentation ll.logical_line INDENTATION_WHITESPACE ++ ll.dedented_line
      = ll.logical_line := by
  unfold LogicalLine.dedented_line leading_indentation
  exact take_append_drop_length _ _

/-- C2 (amended): every logical line the builder returns has no trailing
whitespace, and decomposes as the first contributing token's leading
indentation — the exact source value `first_line[:col]`, where `(row, col)`
is the start of the first `token_offset_mapping` entry's token and
`first_line` is `lines[row - 1]` — followed by a core text (the full text
with that indentation prefix dropped) that equals both its own left-strip
and right-strip (the asserted invariant); the stored `dedented_line`
recomposes with the computed leading indentation to the full text.  The
leading indentation itself is deliberately preserved, so the full text need
not equal its left-strip. -/
theorem build_line_reconstruction (tokens : List Token) (lines : List (List Char))
    (text : List Char) (mapping : List (Nat × Token))
    (hok : build_line_from_tokens tokens lines = Except.ok (text, mapping))
    (hne : ∀ t ∈ tokens, t.text ≠ []) :
    pyRstrip text = text ∧
    (∃ entry first_line,
      mapping.head? = some entry ∧
      pyGet lines ((entry.2.start.1 : Int) - 1) = some first_line ∧
      text = first_line.take entry.2.start.2
          ++ text.drop (first_line.take entry.2.start.2).length ∧
      pyLstrip (text.drop (first_line.take entry.2.start.2).length)
          = text.drop (first_line.take entry.2.start.2).length ∧
      pyRstrip (text.drop (first_line.take entry.2.start.2).length)
          = text.drop (first_line.take entry.2.start.2).length) ∧
    (∀ n bl blc : Nat,
      leading_indentation text INDENTATION_WHITESPACE
        ++ (LogicalLine.mk text n tokens bl blc mapping).dedented_line = text) := by
  unfold build_line_from_tokens at hok
  cases hfold : List.foldlM (buildStep lines) ⟨[], [], 0, none⟩ tokens with
  | error e =>
    rw [hfold] at hok
    exact Except.noConfusion hok
  | ok st =>
    rw [hfold] at hok
    dsimp only at hok
    by_cases hl : pyLstrip st.logical ≠ st.logical
    · rw [if_pos hl] at hok
      exact Except.noConfusion hok
    · rw [if_neg hl] at hok
      by_cases hrs : pyRstrip st.logical ≠ st.logical
      · rw [if_pos hrs] at hok
        exact Except.noConfusion hok
      · rw [if_neg hrs] at hok
        cases hhead : st.mapping.head? with
        | none =>
          rw [hhead] at hok
          exact Except.noConfusion hok
        | some entry =>
          rw [hhead] at hok
          dsimp only at hok
          cases hget : pyGet lines ((entry.2.start.1 : Int) - 1) with
          | none =>
            rw [hget] at hok
            exact Except.noConfusion hok
          | some first_line =>
            rw [hget] at hok
            dsimp only at hok
            have hpair := Except.ok.inj hok
            have htext : first_line.take entry.2.start.2 ++ st.logical = text :=
              congrArg Prod.fst hpair
            have hlEq : pyLstrip st.logical = st.logical := not_ne_iff.1 hl
            have hrEq : pyRstrip st.logical = st.logical := not_ne_iff.1 hrs
            have hmapne : st.mapping ≠ [] := by
              intro hnil
              rw [hnil] at hhead
              exact Option.noConfusion hhead
            have hlogne : st.logical ≠ [] :=
              buildFold_inv lines tokens ⟨[], [], 0, none⟩ st hne
                (fun hm => absurd rfl hm) hfold hmapne
            subst htext
            have hmapeq : st.mapping = mapping := congrArg Prod.snd hpair
            have hdrop : (first_line.take entry.2.start.2 ++ st.logical).drop
                (first_line.take entry.2.start.2).length = st.logical :=
              List.drop_left _ _
            refine ⟨pyRstrip_append _ _ hlogne hrEq,
              ⟨entry, first_line, by rw [← hmapeq]; exact hhead, hget, ?_, ?_, ?_⟩,
              fun n bl blc => leading_indentation_append_dedented ⟨_, n, tokens, bl, blc, mapping⟩⟩
            · rw [hdrop]
            · rw [hdrop]
              exact hlEq
            · rw [hdrop]
              exact hrEq

/-- The single contributing token of the C2 inputs: the name `a` on an
indented physical line. -/
def c2NameToken : Token :=
  { type := TokenType.NAME
    text := "a".toList
    start := (1, 4)
    tokEnd := (1, 5)
    line := "    a\n".toList }

/-- The statement-terminating NEWLINE token (skipped by the builder). -/
def c2NewlineToken : Token :=
  { type := TokenType.NEWLINE
    text := "\n".toList
    start := (1, 5)
    tokEnd := (1, 6)
    line := "    a\n".toList }

/-- C2 counterexample: the builder run on the tokens of the indented
statement `    a` returns the text `    a`, which keeps its leading
indentation and therefore differs from its own left-strip, refuting
`text == strip(text)`. -/
theorem build_line_keeps_leading_indent :
    build_line_from_tokens [c2NameToken, c2NewlineToken] ["    a\n".toList]
        = Except.ok ("    a".toList, [(0, c2NameToken)]) ∧
      pyLstrip "    a".toList ≠ "    a".toList :=
  ⟨rfl, by decide⟩

/-- C2 witness: on the indented statement `    a` the builder's result
satisfies the amended invariants: no trailing whitespace, the decomposition
into the first mapped token's leading columns (here `    `, so the core is
`a`, strip-invariant), and the dedent recomposition. -/
theorem build_line_reconstruction_witness :
    pyRstrip "    a".toList = "    a".toList ∧
      (∃ entry first_line,
        ([(0, c2NameToken)] : List (Nat × Token)).head? = some entry ∧
        pyGet ["    a\n".toList] ((entry.2.start.1 : Int) - 1) = some first_line ∧
        "    a".toList = first_line.take entry.2.start.2
            ++ "    a".toList.drop (first_line.take entry.2.start.2).length ∧
        pyLstrip ("    a".toList.drop (first_line.take entry.2.start.2).length)
            = "    a".toList.drop (first_line.take entry.2.start.2).length ∧
        pyRstrip ("    a".toList.drop (first_line.take entry.2.start.2).length)
            = "    a".toList.drop (first_line.take entry.2.start.2).length) ∧
      leading_indentation "    a".toList INDENTATION_WHITESPACE
          ++ (LogicalLine.mk "    a".toList 1 [c2NameToken, c2NewlineToken] 0 0
              [(0, c2NameToken)]).dedented_line = "    a".toList := by
  have h := build_line_reconstruction [c2NameToken, c2NewlineToken] ["    a\n".toList]
    "    a".toList [(0, c2NameToken)] rfl
    (by intro t ht; fin_cases ht <;> decide)
  exact ⟨h.1, h.2.1, h.2.2 1 0 0⟩

end Pep8
